import Mathlib

/-!
Verification of the POI discovery-and-ranking pipeline of `agents/poi_agent.py`
(class `POIAgent`): preference parsing, route bounds, paginated nearby search,
deduplication, concurrent detail fetch, budget filter, composite ranking and
the outer `find_points_of_interest` driver.

Shallow embedding conventions:
- Python floats are embedded as `ℚ` (all constants in the source are decimal
  and the formulas are exact).
- Python dicts holding place records become the `POI` structure with
  `Option`-valued fields (`None` / missing key = `none`).
- Network calls (`gmaps.directions`, `gmaps.places_nearby`, `gmaps.place`)
  become oracles passed in an `Env`; a call that raises is an oracle returning
  `none` / `.error`.
- `list.sort(key=..., reverse=True)` is Python's stable sort; a stable
  descending sort is extensionally unique, so it is embedded as Mathlib's
  (stable) `List.insertionSort` under the relation "score of the left is at
  least the score of the right".
-/

namespace POIAgent

/-- Lowercasing of a string, embedding Python's `str.lower()` (ASCII view). -/
def lowerStr (s : String) : String := ⟨s.data.map Char.toLower⟩

/-- `subAt pat l i` holds when `pat` occurs in `l` starting at index `i`. -/
def subAt (pat l : List Char) (i : Nat) : Bool :=
  decide ((l.drop i).take pat.length = pat)

/-- Substring occurrence on character lists, embedding Python's `in` on `str`. -/
def containsSub (l pat : List Char) : Bool :=
  (List.range (l.length + 1)).any (subAt pat l)

/-- `strContains s pat` embeds Python's `pat in s` for strings. -/
def strContains (s pat : String) : Bool := containsSub s.data pat.data

/-- A price-level value as found in a place record: either an integer or a
string (Python is dynamically typed here; `int(...)` is attempted on it). -/
inductive PriceVal
  | intVal (n : Int)
  | strVal (s : String)
deriving DecidableEq, Repr

/-- Digits of a decimal numeral to its value; `none` when empty or a
non-digit appears. -/
def digitsVal (l : List Char) : Option Nat :=
  if l ≠ [] ∧ l.all Char.isDigit then
    some (l.foldl (fun acc c => acc * 10 + (c.toNat - 48)) 0)
  else none

/-- Embedding of Python's `int(s)` on a string: optional sign then digits,
`none` when the conversion raises `ValueError`. -/
def pyInt (s : String) : Option Int :=
  match s.data with
  | '-' :: rest => (digitsVal rest).map (fun n => -(n : Int))
  | '+' :: rest => (digitsVal rest).map (fun n => (n : Int))
  | l => (digitsVal l).map (fun n => (n : Int))

/-- Embedding of Python's `int(price_level)`: identity on ints, parse on
strings (`none` = the conversion raised). -/
def PriceVal.toIntOpt : PriceVal → Option Int
  | .intVal n => some n
  | .strVal s => pyInt s

/-- A place record (both the nearby-search `RawPlace` shape and the
`PlaceDetail` shape; missing dict keys are `none`).  The `error` field models
the error-flagged record `{"error": ...}` returned on total pipeline
failure. -/
structure POI where
  place_id : Option String := none
  name : Option String := none
  rating : Option ℚ := none
  user_ratings_total : Option ℚ := none
  types : List String := []
  price_level : Option PriceVal := none
  error : Option String := none
deriving DecidableEq, Repr

/-- Embedding of `POIAgent._filter_by_budget` (poi_agent.py lines 265-286):
no declared price level passes; otherwise `int(price_level)` must lie in the
tier's list, an unrecognized tier accepting all of 0..4; a failing
conversion is caught and the place passes. -/
def filter_by_budget (place_details : POI) (budget : String) : Bool :=
  match place_details.price_level with
  | none => true
  | some price_level =>
    let expected : List Int :=
      if budget = "Budget" then [0, 1]
      else if budget = "Moderate" then [2]
      else if budget = "Luxury" then [3, 4]
      else [0, 1, 2, 3, 4]
    match price_level.toIntOpt with
    | none => true
    | some n => decide (n ∈ expected)

/-- C2: a place with no declared price level is accepted under every budget
tier; a declared integer price level is accepted under "Budget" exactly for
levels {0,1}, under "Moderate" exactly for {2}, under "Luxury" exactly for
{3,4}; and under any other tier name every level 0-4 is accepted. -/
theorem C2_budget_filter (p : POI) (b : String) :
    (p.price_level = none → filter_by_budget p b = true) ∧
    (∀ n : Int, p.price_level = some (.intVal n) →
      filter_by_budget p "Budget" = decide (n = 0 ∨ n = 1) ∧
      filter_by_budget p "Moderate" = decide (n = 2) ∧
      filter_by_budget p "Luxury" = decide (n = 3 ∨ n = 4) ∧
      (b ≠ "Budget" → b ≠ "Moderate" → b ≠ "Luxury" →
        0 ≤ n → n ≤ 4 → filter_by_budget p b = true)) := by
  constructor
  · intro h
    simp [filter_by_budget, h]
  · intro n hn
    refine ⟨?_, ?_, ?_, ?_⟩
    · simp [filter_by_budget, hn, PriceVal.toIntOpt]
    · simp [filter_by_budget, hn, PriceVal.toIntOpt]
    · simp [filter_by_budget, hn, PriceVal.toIntOpt]
    · intro hb hm hl h0 h4
      simp [filter_by_budget, hn, PriceVal.toIntOpt, hb, hm, hl]
      omega

/-- Witness for C2 at a concrete place with price level 2 and the
unrecognized tier name "Premium". -/
theorem C2_budget_filter_witness :
    filter_by_budget { price_level := some (.intVal 2) } "Moderate" = true ∧
    filter_by_budget { price_level := some (.intVal 2) } "Budget" = false ∧
    filter_by_budget { price_level := some (.intVal 2) } "Luxury" = false ∧
    filter_by_budget { price_level := some (.intVal 2) } "Premium" = true ∧
    filter_by_budget { place_id := some "x" } "Luxury" = true := by
  have h := C2_budget_filter { price_level := some (PriceVal.intVal 2) } "Premium"
  have h2 := (h.2 2 rfl)
  have hnone := (C2_budget_filter { place_id := some "x" } "Luxury").1 rfl
  refine ⟨?_, ?_, ?_, ?_, hnone⟩
  · rw [h2.2.1]; decide
  · rw [h2.1]; decide
  · rw [h2.2.2.1]; decide
  · exact h2.2.2.2 (by decide) (by decide) (by decide) (by decide) (by decide)

/-- C10: a present price level whose conversion to `int` fails (e.g. a
non-numeric string) is accepted under every budget tier: the exception is
caught and the filter returns `True`. -/
theorem C10_budget_filter_bad_price (p : POI) (b s : String)
    (hs : p.price_level = some (.strVal s)) (hfail : pyInt s = none) :
    filter_by_budget p b = true := by
  simp only [filter_by_budget, hs, PriceVal.toIntOpt, hfail]

/-- Witness for C10 at the non-numeric price level "abc" under each named
tier and an unnamed one. -/
theorem C10_budget_filter_bad_price_witness :
    filter_by_budget { price_level := some (.strVal "abc") } "Budget" = true ∧
    filter_by_budget { price_level := some (.strVal "abc") } "Moderate" = true ∧
    filter_by_budget { price_level := some (.strVal "abc") } "Luxury" = true ∧
    filter_by_budget { price_level := some (.strVal "abc") } "Premium" = true :=
  ⟨C10_budget_filter_bad_price _ _ "abc" rfl (by decide),
   C10_budget_filter_bad_price _ _ "abc" rfl (by decide),
   C10_budget_filter_bad_price _ _ "abc" rfl (by decide),
   C10_budget_filter_bad_price _ _ "abc" rfl (by decide)⟩

/-- A search term derived from the preference string: an optional place type
and a keyword (`{"type": ..., "keyword": ...}` in the source). -/
structure SearchTerm where
  type : Option String := none
  keyword : String := ""
deriving DecidableEq, Repr

/-- The raw, pre-fallback, pre-dedup search-term list of
`POIAgent._parse_preferences` (poi_agent.py lines 172-191): one vocabulary
check per `if`, appending fixed terms in a fixed order. -/
def rawTerms (preferences : String) : List SearchTerm :=
  let pl := lowerStr preferences
  (if strContains pl "beach" || strContains pl "sea" then
    [⟨some "beach", "beach"⟩] else [])
  ++ (if strContains pl "temple" || strContains pl "worship" then
    [⟨some "hindu_temple", "temple"⟩, ⟨some "church", "church"⟩,
     ⟨some "mosque", "mosque"⟩] else [])
  ++ (if strContains pl "hotel" || strContains pl "stay" ||
        strContains pl "lodging" then
    [⟨some "lodging", "hotel"⟩] else [])
  ++ (if strContains pl "food" || strContains pl "restaurant" ||
        strContains pl "local food" then
    [⟨some "restaurant", "local food"⟩] else [])
  ++ (if strContains pl "historical" || strContains pl "history" then
    [⟨some "tourist_attraction", "historical site"⟩] else [])
  ++ (if strContains pl "museum" then [⟨some "museum", "museum"⟩] else [])
  ++ (if strContains pl "park" then [⟨some "park", "park"⟩] else [])

/-- The fallback of `_parse_preferences` (lines 193-195): when no vocabulary
keyword matched, a single generic tourist-attraction term. -/
def withFallback (ts : List SearchTerm) : List SearchTerm :=
  if ts.isEmpty then [⟨some "tourist_attraction", "attraction"⟩] else ts

/-- The order-preserving dedup loop of `_parse_preferences` (lines 197-204):
`seen` is the set of `(type, keyword)` keys already emitted. -/
def dedupTermsAux : List SearchTerm → List (Option String × String) → List SearchTerm
  | [], _ => []
  | t :: ts, seen =>
    let key := (t.type, t.keyword)
    if key ∈ seen then dedupTermsAux ts seen
    else t :: dedupTermsAux ts (key :: seen)

/-- Embedding of `POIAgent._parse_preferences` (poi_agent.py lines 168-205). -/
def parse_preferences (preferences : String) : List SearchTerm :=
  dedupTermsAux (withFallback (rawTerms preferences)) []

/-- The key of a search term, for uniqueness. -/
def termKey (t : SearchTerm) : Option String × String := (t.type, t.keyword)

theorem dedupTermsAux_sublist (l : List SearchTerm) :
    ∀ seen, (dedupTermsAux l seen).Sublist l := by
  induction l with
  | nil => intro seen; simp [dedupTermsAux]
  | cons t ts ih =>
    intro seen
    unfold dedupTermsAux
    by_cases h : (t.type, t.keyword) ∈ seen
    · simp only [h, if_pos]
      exact (ih seen).cons t
    · simp only [h, if_neg, not_false_iff]
      exact (ih _).cons₂ t

theorem dedupTermsAux_nodup (l : List SearchTerm) :
    ∀ seen, ((dedupTermsAux l seen).map termKey).Nodup ∧
      ∀ k ∈ seen, k ∉ (dedupTermsAux l seen).map termKey := by
  induction l with
  | nil => intro seen; simp [dedupTermsAux]
  | cons t ts ih =>
    intro seen
    unfold dedupTermsAux
    by_cases h : (t.type, t.keyword) ∈ seen
    · simp only [h, if_pos]
      exact ih seen
    · simp only [h, if_neg, not_false_iff, List.map_cons, List.nodup_cons]
      have hkey : termKey t = (t.type, t.keyword) := rfl
      refine ⟨⟨?_, (ih _).1⟩, ?_⟩
      · have := (ih ((t.type, t.keyword) :: seen)).2 (t.type, t.keyword)
          (List.mem_cons_self _ _)
        rwa [hkey]
      · intro k hk
        have hne : k ≠ termKey t := by
          rw [hkey]; rintro rfl; exact h hk
        have := (ih ((t.type, t.keyword) :: seen)).2 k (List.mem_cons_of_mem _ hk)
        simp [hne, this]

/-- C6: for every preference string the parser output is non-empty (falling
back to the single generic tourist-attraction term when no vocabulary keyword
matches), contains no duplicate (type, keyword) pair, and preserves
first-seen order (it is a sublist of the pre-dedup term list). -/
theorem C6_parse_preferences (s : String) :
    parse_preferences s ≠ [] ∧
    ((parse_preferences s).map termKey).Nodup ∧
    (parse_preferences s).Sublist (withFallback (rawTerms s)) ∧
    (rawTerms s = [] →
      parse_preferences s = [⟨some "tourist_attraction", "attraction"⟩]) := by
  refine ⟨?_, (dedupTermsAux_nodup _ []).1, dedupTermsAux_sublist _ [], ?_⟩
  · unfold parse_preferences withFallback
    by_cases h : (rawTerms s).isEmpty
    · simp only [h, if_pos]
      simp [dedupTermsAux]
    · simp only [h, if_neg, not_false_iff]
      rcases hne : rawTerms s with _ | ⟨t, ts⟩
      · simp [hne] at h
      · unfold dedupTermsAux
        simp
  · intro h
    unfold parse_preferences withFallback
    rw [h]
    simp [dedupTermsAux]

/-- Witness for C6 at the empty preference string, where no vocabulary
keyword matches and the fallback fires. -/
theorem C6_parse_preferences_witness :
    parse_preferences "" ≠ [] ∧
    parse_preferences "" = [⟨some "tourist_attraction", "attraction"⟩] := by
  have h := C6_parse_preferences ""
  exact ⟨h.1, h.2.2.2 (by decide)⟩

/-- Embedding of the per-place composite score of `POIAgent._rank_pois`
(poi_agent.py lines 296-321), taking the already-lowercased preference
string (the source computes `preference_lower` once per call): sequential
accumulation of rating, capped review volume, and the five fixed
preference bonuses.  Note the temple bonus tests only `"temple" in
preference_lower` (line 311). -/
def rank_score (poi : POI) (preference_lower : String) : ℚ :=
  let rating := poi.rating.getD 0
  let reviews := poi.user_ratings_total.getD 0
  let s1 : ℚ := 0 + rating * 15
  let s2 := s1 + min (reviews / 200 * 25) 25
  let s3 := s2 + (if (strContains preference_lower "beach" ||
      strContains preference_lower "sea") && decide ("beach" ∈ poi.types)
    then (80 : ℚ) else 0)
  let s4 := s3 + (if strContains preference_lower "temple" &&
      (["hindu_temple", "church", "mosque"].any
        (fun t => decide (t ∈ poi.types)))
    then (80 : ℚ) else 0)
  let s5 := s4 + (if strContains preference_lower "historical" &&
      decide ("tourist_attraction" ∈ poi.types)
    then (60 : ℚ) else 0)
  let s6 := s5 + (if (strContains preference_lower "hotel" ||
      strContains preference_lower "stay") && decide ("lodging" ∈ poi.types)
    then (30 : ℚ) else 0)
  let s7 := s6 + (if (strContains preference_lower "food" ||
      strContains preference_lower "restaurant") &&
      decide ("restaurant" ∈ poi.types)
    then (30 : ℚ) else 0)
  s7

/-- Modelled from the claim's words (C1), for comparison with `rank_score`:
`rating * 15 + min(review_count / 200 * 25, 25) + preference_bonus` where the
temple bonus fires on a temple OR worship preference match. -/
def claimScore_C1 (poi : POI) (preferences : String) : ℚ :=
  let pl := lowerStr preferences
  (poi.rating.getD 0) * 15
  + min ((poi.user_ratings_total.getD 0) / 200 * 25) 25
  + ((if (strContains pl "beach" || strContains pl "sea") &&
        decide ("beach" ∈ poi.types) then (80 : ℚ) else 0)
    + (if (strContains pl "temple" || strContains pl "worship") &&
        (["hindu_temple", "church", "mosque"].any
          (fun t => decide (t ∈ poi.types))) then (80 : ℚ) else 0)
    + (if strContains pl "historical" &&
        decide ("tourist_attraction" ∈ poi.types) then (60 : ℚ) else 0)
    + (if (strContains pl "hotel" || strContains pl "stay") &&
        decide ("lodging" ∈ poi.types) then (30 : ℚ) else 0)
    + (if (strContains pl "food" || strContains pl "restaurant") &&
        decide ("restaurant" ∈ poi.types) then (30 : ℚ) else 0))

/-- The claim amended to match the source: identical to `claimScore_C1`
except that the 80-point religious-site bonus requires a "temple" preference
match — a "worship" match alone does not trigger it. -/
def amendScore_C1 (poi : POI) (preferences : String) : ℚ :=
  let pl := lowerStr preferences
  (poi.rating.getD 0) * 15
  + min ((poi.user_ratings_total.getD 0) / 200 * 25) 25
  + ((if (strContains pl "beach" || strContains pl "sea") &&
        decide ("beach" ∈ poi.types) then (80 : ℚ) else 0)
    + (if strContains pl "temple" &&
        (["hindu_temple", "church", "mosque"].any
          (fun t => decide (t ∈ poi.types))) then (80 : ℚ) else 0)
    + (if strContains pl "historical" &&
        decide ("tourist_attraction" ∈ poi.types) then (60 : ℚ) else 0)
    + (if (strContains pl "hotel" || strContains pl "stay") &&
        decide ("lodging" ∈ poi.types) then (30 : ℚ) else 0)
    + (if (strContains pl "food" || strContains pl "restaurant") &&
        decide ("restaurant" ∈ poi.types) then (30 : ℚ) else 0))

/-- Counterexample to C1 as stated: for the preference string "worship" and a
place tagged "church" with no rating and no reviews, the code's score is 0
while the claimed formula (temple OR worship triggering the 80 bonus)
gives 80. -/
theorem C1_score_counterexample :
    rank_score { types := ["church"] } (lowerStr "worship") = 0 ∧
    claimScore_C1 { types := ["church"] } "worship" = 80 ∧
    rank_score { types := ["church"] } (lowerStr "worship") ≠
      claimScore_C1 { types := ["church"] } "worship" := by
  have hb : strContains (lowerStr "worship") "beach" = false := rfl
  have hs : strContains (lowerStr "worship") "sea" = false := rfl
  have ht : strContains (lowerStr "worship") "temple" = false := rfl
  have hw : strContains (lowerStr "worship") "worship" = true := rfl
  have hh : strContains (lowerStr "worship") "historical" = false := rfl
  have hho : strContains (lowerStr "worship") "hotel" = false := rfl
  have hst : strContains (lowerStr "worship") "stay" = false := rfl
  have hf : strContains (lowerStr "worship") "food" = false := rfl
  have hr : strContains (lowerStr "worship") "restaurant" = false := rfl
  have m2 : (["hindu_temple", "church", "mosque"] : List String).any
      (fun t => decide (t ∈ (["church"] : List String))) = true := rfl
  have e0 : rank_score { types := ["church"] } (lowerStr "worship") = 0 := by
    simp [rank_score, hb, hs, ht, hh, hho, hst, hf, hr]
  have e80 : claimScore_C1 { types := ["church"] } "worship" = 80 := by
    simp [claimScore_C1, hb, hs, ht, hw, hh, hho, hst, hf, hr, m2]
  refine ⟨e0, e80, ?_⟩
  rw [e0, e80]
  norm_num

/-- C1 (amended): the Ranker's composite score equals
`rating * 15 + min(review_count / 200 * 25, 25) + preference_bonus`, bonuses
additive and not mutually exclusive, a missing rating or review count
contributing 0, with the temple bonus triggered by a "temple" preference
match only (not by "worship"). -/
theorem C1_score_formula (poi : POI) (preferences : String) :
    rank_score poi (lowerStr preferences) = amendScore_C1 poi preferences := by
  unfold rank_score amendScore_C1
  ring

/-- The dedup loop of `find_points_of_interest` (poi_agent.py lines 129-135):
a Python dict keyed by `place_id` in insertion order.  Line 133 guards on
truthiness (`if pid and pid not in unique`), so an entry whose `place_id` is
missing (`None`) or the empty string (falsy) is skipped, as is an entry
whose id was already seen; `acc` is the dict as an ordered association
list. -/
def dedupAux : List POI → List (String × POI) → List (String × POI)
  | [], acc => acc
  | p :: ps, acc =>
    match p.place_id with
    | none => dedupAux ps acc
    | some pid =>
      if pid = "" then dedupAux ps acc
      else if pid ∈ acc.map Prod.fst then dedupAux ps acc
      else dedupAux ps (acc ++ [(pid, p)])

/-- Embedding of the deduplication step: `list(unique.values())`; by the
truthiness guard of line 133, records with a missing or empty-string
`place_id` never enter the dict. -/
def dedupById (pois : List POI) : List POI := (dedupAux pois []).map Prod.snd

/-- The Boolean test "this record's place identifier is `pid`". -/
def hasId (pid : String) (p : POI) : Bool := decide (p.place_id = some pid)

theorem dedupAux_filter_key (pid : String) (hpid : pid ≠ "") :
    ∀ (pois : List POI) (acc : List (String × POI)),
      (dedupAux pois acc).filter (fun e => decide (e.1 = pid))
        = acc.filter (fun e => decide (e.1 = pid))
          ++ (if pid ∈ acc.map Prod.fst then []
              else ((pois.filter (hasId pid)).take 1).map (fun p => (pid, p))) := by
  intro pois
  induction pois with
  | nil =>
    intro acc
    by_cases h : pid ∈ acc.map Prod.fst
    · simp [dedupAux, h]
    · simp [dedupAux, h]
  | cons p ps ih =>
    intro acc
    rcases hp : p.place_id with _ | q
    · have hfp : hasId pid p = false := by simp [hasId, hp]
      simp only [dedupAux, hp, List.filter_cons, hfp]
      exact ih acc
    · by_cases hqe : q = ""
      · have hq : q ≠ pid := fun hcon => hpid (hcon ▸ hqe)
        have hfp : hasId pid p = false := by
          simp only [hasId, hp, decide_eq_false_iff_not]
          exact fun hcon => hq (Option.some.inj hcon)
        simp only [dedupAux, hp, List.filter_cons, hfp, Bool.false_eq_true,
          if_false]
        rw [if_pos hqe]
        exact ih acc
      · simp only [dedupAux, hp]
        rw [if_neg hqe]
        by_cases hq : q ∈ acc.map Prod.fst
        · rw [if_pos hq]
          rw [ih acc]
          by_cases hqp : q = pid
          · subst hqp
            simp [hq, List.filter_cons]
          · have hfp : hasId pid p = false := by
              simp only [hasId, hp, decide_eq_false_iff_not]
              intro hcon
              exact hqp (Option.some.inj hcon)
            simp [List.filter_cons, hfp]
        · rw [if_neg hq]
          rw [ih (acc ++ [(q, p)])]
          by_cases hqp : q = pid
          · subst hqp
            have hfp : hasId q p = true := by simp [hasId, hp]
            have hmem : q ∈ (acc ++ [(q, p)]).map Prod.fst := by simp
            simp [hmem, hq, List.filter_append, List.filter_cons, hfp]
          · have hfp : hasId pid p = false := by
              simp only [hasId, hp, decide_eq_false_iff_not]
              intro hcon
              exact hqp (Option.some.inj hcon)
            have hmem : (pid ∈ (acc ++ [(q, p)]).map Prod.fst) ↔
                (pid ∈ acc.map Prod.fst) := by
              simp only [List.map_append, List.mem_append, List.map_cons,
                List.map_nil, List.mem_singleton]
              constructor
              · rintro (h | h)
                · exact h
                · exact absurd h.symm hqp
              · exact Or.inl
            by_cases hm : pid ∈ acc.map Prod.fst
            · simp [hmem.mpr hm, hm, List.filter_append, List.filter_cons,
                hfp, hqp]
            · have hnm : pid ∉ (acc ++ [(q, p)]).map Prod.fst :=
                fun h => hm (hmem.mp h)
              simp [hnm, hm, List.filter_append, List.filter_cons, hfp, hqp]
              intro h
              exact absurd h.symm hqp

theorem dedupAux_entries (pois : List POI) :
    ∀ acc, (∀ e ∈ acc, e.2.place_id = some e.1 ∧ e.1 ≠ "") →
      ∀ e ∈ dedupAux pois acc, e.2.place_id = some e.1 ∧ e.1 ≠ "" := by
  induction pois with
  | nil => intro acc hacc; simpa [dedupAux] using hacc
  | cons p ps ih =>
    intro acc hacc
    rcases hp : p.place_id with _ | q
    · simp only [dedupAux, hp]
      exact ih acc hacc
    · simp only [dedupAux, hp]
      by_cases hqe : q = ""
      · rw [if_pos hqe]
        exact ih acc hacc
      · rw [if_neg hqe]
        by_cases hq : q ∈ acc.map Prod.fst
        · rw [if_pos hq]
          exact ih acc hacc
        · rw [if_neg hq]
          refine ih (acc ++ [(q, p)]) ?_
          intro e he
          rcases List.mem_append.mp he with h1 | h2
          · exact hacc e h1
          · simp at h2
            rw [h2]
            exact ⟨hp, hqe⟩


theorem dedupAux_mem (pois : List POI) :
    ∀ acc, ∀ e ∈ dedupAux pois acc, e ∈ acc ∨ e.2 ∈ pois := by
  induction pois with
  | nil => intro acc e he; exact Or.inl he
  | cons p ps ih =>
    intro acc e he
    rcases hp : p.place_id with _ | q
    · simp only [dedupAux, hp] at he
      rcases ih acc e he with h | h
      · exact Or.inl h
      · exact Or.inr (List.mem_cons_of_mem p h)
    · simp only [dedupAux, hp] at he
      by_cases hqe : q = ""
      · rw [if_pos hqe] at he
        rcases ih acc e he with h | h
        · exact Or.inl h
        · exact Or.inr (List.mem_cons_of_mem p h)
      · rw [if_neg hqe] at he
        by_cases hq : q ∈ acc.map Prod.fst
        · rw [if_pos hq] at he
          rcases ih acc e he with h | h
          · exact Or.inl h
          · exact Or.inr (List.mem_cons_of_mem p h)
        · rw [if_neg hq] at he
          rcases ih (acc ++ [(q, p)]) e he with h | h
          · rcases List.mem_append.mp h with h1 | h2
            · exact Or.inl h1
            · simp at h2
              rw [h2]
              exact Or.inr (List.mem_cons_self p ps)
          · exact Or.inr (List.mem_cons_of_mem p h)

theorem dedupAux_keys_nodup (pois : List POI) :
    ∀ acc, (acc.map Prod.fst).Nodup → ((dedupAux pois acc).map Prod.fst).Nodup := by
  induction pois with
  | nil => intro acc h; simpa [dedupAux] using h
  | cons p ps ih =>
    intro acc hacc
    rcases hp : p.place_id with _ | q
    · simp only [dedupAux, hp]
      exact ih acc hacc
    · simp only [dedupAux, hp]
      by_cases hqe : q = ""
      · rw [if_pos hqe]
        exact ih acc hacc
      · rw [if_neg hqe]
        by_cases hq : q ∈ acc.map Prod.fst
        · rw [if_pos hq]
          exact ih acc hacc
        · rw [if_neg hq]
          refine ih (acc ++ [(q, p)]) ?_
          simp [List.nodup_append, hacc, hq]

theorem filterMap_place_id (L : List (String × POI))
    (hL : ∀ e ∈ L, e.2.place_id = some e.1) :
    (L.map Prod.snd).filterMap POI.place_id = L.map Prod.fst := by
  induction L with
  | nil => simp
  | cons e L ih =>
    simp only [List.map_cons, List.filterMap_cons,
      hL e (List.mem_cons_self e L)]
    rw [ih (fun x hx => hL x (List.mem_cons_of_mem e hx))]

/-- C4: the Deduplicator keeps, for each non-empty place identifier, exactly
the first input occurrence (so no two output entries share an identifier and
output identifiers all come from the input), and drops every entry lacking a
place identifier — by the truthiness guard of line 133 a missing id and the
falsy empty-string id are dropped alike. -/
theorem C4_dedup (pois : List POI) :
    (∀ pid : String, pid ≠ "" →
      (dedupById pois).filter (hasId pid)
        = (pois.filter (hasId pid)).take 1) ∧
    (dedupById pois).filter (hasId "") = [] ∧
    ((dedupById pois).filterMap POI.place_id).Nodup ∧
    (∀ p ∈ dedupById pois,
      p.place_id ≠ none ∧ p.place_id ≠ some "" ∧ p ∈ pois) := by
  have hent : ∀ e ∈ dedupAux pois [], e.2.place_id = some e.1 ∧ e.1 ≠ "" :=
    dedupAux_entries pois [] (by intro e he; simp at he)
  refine ⟨?_, ?_, ?_, ?_⟩
  · intro pid hpid
    have hkey := dedupAux_filter_key pid hpid pois []
    simp only [List.filter_nil, List.map_nil, List.not_mem_nil, if_neg,
      not_false_iff, List.nil_append] at hkey
    calc (dedupById pois).filter (hasId pid)
        = ((dedupAux pois []).filter (fun e => hasId pid e.2)).map Prod.snd := by
          rw [dedupById, List.filter_map]
          rfl
      _ = ((dedupAux pois []).filter (fun e => decide (e.1 = pid))).map Prod.snd := by
          congr 1
          apply List.filter_congr
          intro e he
          simp [hasId, (hent e he).1]
      _ = (((pois.filter (hasId pid)).take 1).map (fun p => (pid, p))).map
            Prod.snd := by rw [hkey]
      _ = (pois.filter (hasId pid)).take 1 := by
          simp [List.map_map]
  · rw [List.filter_eq_nil_iff]
    intro p hp
    rcases List.mem_map.mp hp with ⟨e, he, hesnd⟩
    obtain ⟨h1, h2⟩ := hent e he
    rw [← hesnd]
    simp only [hasId, h1, decide_eq_true_eq]
    intro hcon
    exact h2 (Option.some.inj hcon)
  · rw [dedupById, filterMap_place_id _ (fun e he => (hent e he).1)]
    exact dedupAux_keys_nodup pois [] (by simp)
  · intro p hp
    rcases List.mem_map.mp hp with ⟨e, he, hesnd⟩
    obtain ⟨h1, h2⟩ := hent e he
    refine ⟨?_, ?_, ?_⟩
    · rw [← hesnd, h1]
      exact Option.some_ne_none e.1
    · rw [← hesnd, h1]
      intro hcon
      exact h2 (Option.some.inj hcon)
    · rcases dedupAux_mem pois [] e he with h | h
      · simp at h
      · rw [← hesnd]; exact h

/-- A latitude/longitude pair (`{"lat": ..., "lng": ...}`). -/
structure LatLng where
  lat : ℚ
  lng : ℚ
deriving DecidableEq, Repr

/-- A route leg; `none` models a missing `start_location`/`end_location`
dict or one missing a `lat`/`lng` key (poi_agent.py lines 220-227). -/
structure Leg where
  start_location : Option LatLng := none
  end_location : Option LatLng := none
deriving DecidableEq, Repr

/-- A route record, consumed only for its legs. -/
structure Route where
  legs : List Leg := []
deriving DecidableEq, Repr

/-- The bounds record returned by `_get_route_bounds`. -/
structure RouteBounds where
  center : LatLng
  northeast : LatLng
  southwest : LatLng
deriving DecidableEq, Repr

/-- The coordinates collected from the legs, start then end per leg,
skipping missing ones — the `latitudes`/`longitudes` accumulation of
poi_agent.py lines 216-227, kept as points (both lists are built in
lockstep). -/
def routePoints (legs : List Leg) : List LatLng :=
  (legs.map (fun leg => leg.start_location.toList ++ leg.end_location.toList)).flatten

/-- Python's `max` over a nonempty list, seeded with its head. -/
def qmax (x : ℚ) (l : List ℚ) : ℚ := l.foldl max x

/-- Python's `min` over a nonempty list, seeded with its head. -/
def qmin (x : ℚ) (l : List ℚ) : ℚ := l.foldl min x

/-- Embedding of `POIAgent._get_route_bounds` (poi_agent.py lines 207-235):
`None` when there are no legs or no coordinates were collected, else the
mean center and the componentwise max/min corners. -/
def get_route_bounds (route : Route) : Option RouteBounds :=
  if route.legs.isEmpty then none
  else
    match routePoints route.legs with
    | [] => none
    | p :: ps =>
      some
        { center :=
            ⟨(p.lat :: ps.map LatLng.lat).sum / (p.lat :: ps.map LatLng.lat).length,
             (p.lng :: ps.map LatLng.lng).sum / (p.lng :: ps.map LatLng.lng).length⟩,
          northeast := ⟨qmax p.lat (ps.map LatLng.lat), qmax p.lng (ps.map LatLng.lng)⟩,
          southwest := ⟨qmin p.lat (ps.map LatLng.lat), qmin p.lng (ps.map LatLng.lng)⟩ }

theorem le_qmax_init (x : ℚ) (l : List ℚ) : x ≤ qmax x l := by
  induction l generalizing x with
  | nil => exact le_refl x
  | cons y ys ih =>
    calc x ≤ max x y := le_max_left x y
    _ ≤ qmax (max x y) ys := ih (max x y)
    _ = qmax x (y :: ys) := rfl

theorem le_qmax_of_mem {y : ℚ} {l : List ℚ} (x : ℚ) (hy : y ∈ l) :
    y ≤ qmax x l := by
  induction l generalizing x with
  | nil => simp at hy
  | cons z zs ih =>
    rcases List.mem_cons.mp hy with h | h
    · subst h
      calc y ≤ max x y := le_max_right x y
      _ ≤ qmax (max x y) zs := le_qmax_init _ zs
      _ = qmax x (y :: zs) := rfl
    · exact ih (max x z) h

theorem qmax_mem (x : ℚ) (l : List ℚ) : qmax x l ∈ x :: l := by
  induction l generalizing x with
  | nil => simp [qmax]
  | cons y ys ih =>
    have h := ih (max x y)
    rcases List.mem_cons.mp h with h1 | h1
    · rcases max_choice x y with hc | hc
      · exact List.mem_cons.mpr (Or.inl (by rw [show qmax x (y :: ys) = qmax (max x y) ys from rfl, h1, hc]))
      · refine List.mem_cons.mpr (Or.inr (List.mem_cons.mpr (Or.inl ?_)))
        rw [show qmax x (y :: ys) = qmax (max x y) ys from rfl, h1, hc]
    · exact List.mem_cons.mpr (Or.inr (List.mem_cons.mpr (Or.inr h1)))

theorem qmin_init_le (x : ℚ) (l : List ℚ) : qmin x l ≤ x := by
  induction l generalizing x with
  | nil => exact le_refl x
  | cons y ys ih =>
    calc qmin x (y :: ys) = qmin (min x y) ys := rfl
    _ ≤ min x y := ih (min x y)
    _ ≤ x := min_le_left x y

theorem qmin_le_of_mem {y : ℚ} {l : List ℚ} (x : ℚ) (hy : y ∈ l) :
    qmin x l ≤ y := by
  induction l generalizing x with
  | nil => simp at hy
  | cons z zs ih =>
    rcases List.mem_cons.mp hy with h | h
    · subst h
      calc qmin x (y :: zs) = qmin (min x y) zs := rfl
      _ ≤ min x y := qmin_init_le _ zs
      _ ≤ y := min_le_right x y
    · exact ih (min x z) h

theorem qmin_mem (x : ℚ) (l : List ℚ) : qmin x l ∈ x :: l := by
  induction l generalizing x with
  | nil => simp [qmin]
  | cons y ys ih =>
    have h := ih (min x y)
    rcases List.mem_cons.mp h with h1 | h1
    · rcases min_choice x y with hc | hc
      · exact List.mem_cons.mpr (Or.inl (by rw [show qmin x (y :: ys) = qmin (min x y) ys from rfl, h1, hc]))
      · refine List.mem_cons.mpr (Or.inr (List.mem_cons.mpr (Or.inl ?_)))
        rw [show qmin x (y :: ys) = qmin (min x y) ys from rfl, h1, hc]
    · exact List.mem_cons.mpr (Or.inr (List.mem_cons.mpr (Or.inr h1)))

/-- C5: the bounds calculator returns an absent result exactly when the route
has no legs or no start/end coordinates were collected; otherwise the center
is the arithmetic mean of the collected latitudes and longitudes, the
northeast (southwest) corner is the componentwise maximum (minimum) of the
collected coordinates, and every collected leg endpoint lies within the
southwest/northeast box. -/
theorem C5_route_bounds (route : Route) :
    (get_route_bounds route = none ↔
      route.legs = [] ∨ routePoints route.legs = []) ∧
    (∀ b, get_route_bounds route = some b →
      (b.center.lat =
          ((routePoints route.legs).map LatLng.lat).sum /
            ((routePoints route.legs).map LatLng.lat).length ∧
        b.center.lng =
          ((routePoints route.legs).map LatLng.lng).sum /
            ((routePoints route.legs).map LatLng.lng).length) ∧
      (b.northeast.lat ∈ (routePoints route.legs).map LatLng.lat ∧
        b.northeast.lng ∈ (routePoints route.legs).map LatLng.lng ∧
        b.southwest.lat ∈ (routePoints route.legs).map LatLng.lat ∧
        b.southwest.lng ∈ (routePoints route.legs).map LatLng.lng) ∧
      (∀ pt ∈ routePoints route.legs,
        b.southwest.lat ≤ pt.lat ∧ pt.lat ≤ b.northeast.lat ∧
        b.southwest.lng ≤ pt.lng ∧ pt.lng ≤ b.northeast.lng)) := by
  constructor
  · constructor
    · intro h
      by_cases hl : route.legs.isEmpty
      · exact Or.inl (List.isEmpty_iff.mp hl)
      · rcases hpts : routePoints route.legs with _ | ⟨p, ps⟩
        · exact Or.inr rfl
        · rw [get_route_bounds, if_neg hl, hpts] at h
          simp at h
    · intro h
      rcases h with h | h
      · rw [get_route_bounds, if_pos (List.isEmpty_iff.mpr h)]
      · rw [get_route_bounds, h]
        split <;> rfl
  · intro b hb
    by_cases hl : route.legs.isEmpty
    · rw [get_route_bounds, if_pos hl] at hb
      exact absurd hb (by simp)
    · rcases hpts : routePoints route.legs with _ | ⟨p, ps⟩
      · rw [get_route_bounds, if_neg hl, hpts] at hb
        exact absurd hb (by simp)
      · simp only [get_route_bounds, if_neg hl, hpts, Option.some_inj] at hb
        subst hb
        simp only [List.map_cons]
        refine ⟨⟨by simp, by simp⟩, ?_, ?_⟩
        · exact ⟨qmax_mem p.lat (ps.map LatLng.lat),
            qmax_mem p.lng (ps.map LatLng.lng),
            qmin_mem p.lat (ps.map LatLng.lat),
            qmin_mem p.lng (ps.map LatLng.lng)⟩
        · intro pt hpt
          rcases List.mem_cons.mp hpt with h | h
          · subst h
            exact ⟨qmin_init_le _ _, le_qmax_init _ _,
              qmin_init_le _ _, le_qmax_init _ _⟩
          · exact ⟨qmin_le_of_mem _ (List.mem_map_of_mem LatLng.lat h),
              le_qmax_of_mem _ (List.mem_map_of_mem LatLng.lat h),
              qmin_le_of_mem _ (List.mem_map_of_mem LatLng.lng h),
              le_qmax_of_mem _ (List.mem_map_of_mem LatLng.lng h)⟩

/-- Witness for C5 at a concrete two-leg route, exercising both the `some`
branch (center/corner values and the bounding-box inequality at each point)
and the `none` branch at a route with zero legs. -/
theorem C5_route_bounds_witness :
    get_route_bounds { legs := [] } = none ∧
    (∀ b, get_route_bounds
        { legs := [{ start_location := some ⟨2, 30⟩, end_location := some ⟨6, 10⟩ },
                   { start_location := none, end_location := some ⟨4, 20⟩ }] } = some b →
      b.southwest.lat ≤ 6 ∧ 6 ≤ b.northeast.lat) := by
  constructor
  · exact (C5_route_bounds { legs := [] }).1.mpr (Or.inl rfl)
  · intro b hb
    have h := ((C5_route_bounds _).2 b hb).2.2 ⟨6, 10⟩ (by
      show ⟨6, 10⟩ ∈ routePoints _
      decide)
    exact ⟨h.1, h.2.1⟩

/-- A concrete input for the C4 witness: a duplicated identifier, an entry
without an identifier, an entry with the falsy empty-string identifier, and
a second distinct identifier. -/
def poisW : List POI :=
  [{ place_id := some "x", name := some "first" },
   { place_id := none },
   { place_id := some "" },
   { place_id := some "x", name := some "second" },
   { place_id := some "y" }]

/-- Witness for C4: on `poisW` the first occurrence of "x" is kept, the
empty-string entry is dropped, the output identifiers are duplicate-free,
and a concrete kept record has a truthy identifier and comes from the
input. -/
theorem C4_dedup_witness :
    (dedupById poisW).filter (hasId "x") = (poisW.filter (hasId "x")).take 1 ∧
    (dedupById poisW).filter (hasId "") = [] ∧
    ((dedupById poisW).filterMap POI.place_id).Nodup ∧
    (∃ p, p ∈ dedupById poisW ∧ p.place_id ≠ none ∧ p.place_id ≠ some "" ∧
      p ∈ poisW) := by
  have h := C4_dedup poisW
  refine ⟨h.1 "x" (by decide), h.2.1, h.2.2.1, ?_⟩
  have hmem : ({ place_id := some "x", name := some "first" } : POI)
      ∈ dedupById poisW := by decide
  obtain ⟨h1, h2, h3⟩ := h.2.2.2 _ hmem
  exact ⟨_, hmem, h1, h2, h3⟩

/-- The ordering used by `scored.sort(key=lambda x: x[0], reverse=True)`
(poi_agent.py line 323): a scored pair sorts before another when its score is
at least the other's. -/
def rankRel (a b : ℚ × POI) : Prop := b.1 ≤ a.1

instance : DecidableRel rankRel :=
  fun a b => inferInstanceAs (Decidable (b.1 ≤ a.1))

instance : IsTotal (ℚ × POI) rankRel := ⟨fun a b => le_total b.1 a.1⟩

instance : IsTrans (ℚ × POI) rankRel :=
  ⟨fun _ _ _ h1 h2 => le_trans h2 h1⟩

/-- Embedding of `POIAgent._rank_pois` (poi_agent.py lines 288-324): score
every place against the lowercased preference string, sort stably by
descending score (Python's `list.sort` is stable and `reverse=True`
preserves the order of ties; a stable descending sort is extensionally
unique, here realized by `List.insertionSort`), and drop the scores. -/
def rank_pois (pois : List POI) (preferences : String) : List POI :=
  (List.insertionSort rankRel
    (pois.map (fun poi => (rank_score poi (lowerStr preferences), poi)))).map
    Prod.snd

theorem filter_orderedInsert_key (a : ℚ × POI) (L : List (ℚ × POI)) (s : ℚ) :
    (L.orderedInsert rankRel a).filter (fun e => decide (e.1 = s))
      = if a.1 = s then a :: L.filter (fun e => decide (e.1 = s))
        else L.filter (fun e => decide (e.1 = s)) := by
  have hsplit := List.takeWhile_append_dropWhile
    (fun b => decide ¬(rankRel a b)) L
  rw [List.orderedInsert_eq_take_drop, List.filter_append, List.filter_cons]
  by_cases ha : a.1 = s
  · have htw : (L.takeWhile (fun b => decide ¬(rankRel a b))).filter
        (fun e => decide (e.1 = s)) = [] := by
      rw [List.filter_eq_nil_iff]
      intro e he
      have hlt : ¬ rankRel a e := by simpa using List.mem_takeWhile_imp he
      have : a.1 < e.1 := lt_of_not_le hlt
      simp only [decide_eq_true_eq]
      intro hcon
      rw [ha] at this
      exact absurd hcon (ne_of_gt this)
    rw [if_pos ha, htw]
    simp only [ha, decide_True, if_true, List.nil_append]
    conv_rhs => rw [← hsplit]
    rw [List.filter_append, htw, List.nil_append]
  · rw [if_neg ha]
    have hda : (decide (a.1 = s)) = false := by simp [ha]
    simp only [hda, Bool.false_eq_true, if_false]
    conv_rhs => rw [← hsplit]
    rw [List.filter_append]

theorem filter_insertionSort_key (s : ℚ) (l : List (ℚ × POI)) :
    (List.insertionSort rankRel l).filter (fun e => decide (e.1 = s))
      = l.filter (fun e => decide (e.1 = s)) := by
  induction l with
  | nil => rfl
  | cons a l ih =>
    rw [List.insertionSort, filter_orderedInsert_key, List.filter_cons]
    by_cases ha : a.1 = s
    · rw [if_pos ha, ih]
      simp [ha]
    · rw [if_neg ha, ih]
      simp [ha]

/-- C3: the Ranker's output is a permutation of its input, sorted in
descending order of composite score, and the sort is stable (places of equal
score keep their input order, stated as equality of the score-class
sublists); the pipeline then truncates the ranked list to at most
`max_pois` entries (a prefix of the ranked list). -/
theorem C3_rank_pois (pois : List POI) (preferences : String) (max_pois : Nat) :
    (rank_pois pois preferences).Perm pois ∧
    (rank_pois pois preferences).Pairwise
      (fun p q => rank_score q (lowerStr preferences) ≤
        rank_score p (lowerStr preferences)) ∧
    (∀ s : ℚ, (rank_pois pois preferences).filter
        (fun p => decide (rank_score p (lowerStr preferences) = s))
      = pois.filter (fun p => decide (rank_score p (lowerStr preferences) = s))) ∧
    ((rank_pois pois preferences).take max_pois).length ≤ max_pois ∧
    (∃ rest, rank_pois pois preferences
      = (rank_pois pois preferences).take max_pois ++ rest) := by
  have hperm := List.perm_insertionSort rankRel
    (pois.map (fun poi => (rank_score poi (lowerStr preferences), poi)))
  have hsnd : (pois.map
      (fun poi => (rank_score poi (lowerStr preferences), poi))).map Prod.snd
      = pois := by
    rw [List.map_map]
    exact List.map_id pois
  have hmem : ∀ x ∈ List.insertionSort rankRel
      (pois.map (fun poi => (rank_score poi (lowerStr preferences), poi))),
      x.1 = rank_score x.2 (lowerStr preferences) := by
    intro x hx
    have hx2 := hperm.subset hx
    rcases List.mem_map.mp hx2 with ⟨poi, _, hpoi⟩
    rw [← hpoi]
  have hmem2 : ∀ x ∈ pois.map
      (fun poi => (rank_score poi (lowerStr preferences), poi)),
      x.1 = rank_score x.2 (lowerStr preferences) := by
    intro x hx
    rcases List.mem_map.mp hx with ⟨poi, _, hpoi⟩
    rw [← hpoi]
  refine ⟨?_, ?_, ?_, List.length_take_le _ _,
    ⟨(rank_pois pois preferences).drop max_pois,
      (List.take_append_drop _ _).symm⟩⟩
  · have h := hperm.map Prod.snd
    rw [hsnd] at h
    rw [rank_pois]
    exact h
  · have hsorted := List.sorted_insertionSort rankRel
      (pois.map (fun poi => (rank_score poi (lowerStr preferences), poi)))
    rw [rank_pois, List.pairwise_map]
    refine List.Pairwise.imp_of_mem ?_ hsorted
    intro a b ha hb hr
    rw [← hmem a ha, ← hmem b hb]
    exact hr
  · intro s
    rw [rank_pois, List.filter_map]
    have hc1 : (List.insertionSort rankRel
        (pois.map (fun poi => (rank_score poi (lowerStr preferences), poi)))).filter
          ((fun p => decide (rank_score p (lowerStr preferences) = s)) ∘ Prod.snd)
        = (List.insertionSort rankRel
        (pois.map (fun poi => (rank_score poi (lowerStr preferences), poi)))).filter
          (fun e => decide (e.1 = s)) := by
      apply List.filter_congr
      intro x hx
      simp only [Function.comp]
      rw [hmem x hx]
    have hc2 : (pois.map
        (fun poi => (rank_score poi (lowerStr preferences), poi))).filter
          (fun e => decide (e.1 = s))
        = (pois.map
        (fun poi => (rank_score poi (lowerStr preferences), poi))).filter
          ((fun p => decide (rank_score p (lowerStr preferences) = s)) ∘ Prod.snd) := by
      apply List.filter_congr
      intro x hx
      simp only [Function.comp]
      rw [hmem2 x hx]
    rw [hc1, filter_insertionSort_key, hc2, ← List.filter_map, hsnd]

/-- One page of nearby-search results as returned by the places endpoint:
a `results` array and an optional continuation token. -/
structure Page where
  results : List POI := []
  next_page_token : Option String := none

/-- The per-term pagination loop of `find_points_of_interest` (poi_agent.py
lines 92-123): `pageOracle i` is the response to the request made when
`pages_fetched = i` (`none` = the request raised and the `except` branch
breaks).  The loop runs `while pages_fetched < 3`, incrementing only after a
page that carries a continuation token; the first component is the
accumulated results, the second the number of page requests issued.  The
fuel argument is `3 - pages_fetched`. -/
def fetchPagesAux (pageOracle : Nat → Option Page) : Nat → Nat → List POI × Nat
  | 0, _ => ([], 0)
  | fuel + 1, i =>
    match pageOracle i with
    | none => ([], 1)
    | some pg =>
      match pg.next_page_token with
      | none => (pg.results, 1)
      | some _ =>
        match fetchPagesAux pageOracle fuel (i + 1) with
        | (rest, n) => (pg.results ++ rest, n + 1)

/-- All pages fetched for a single search term (at most three). -/
def fetchPages (pageOracle : Nat → Option Page) : List POI × Nat :=
  fetchPagesAux pageOracle 3 0

/-- The outer `for term in search_terms` loop (poi_agent.py lines 86-123):
`pages i j` is the response to page `j` of the `i`-th term; one flat `pois`
accumulator and a total request count. -/
def nearby_search_all (pages : Nat → Nat → Option Page) :
    List SearchTerm → Nat → List POI × Nat
  | [], _ => ([], 0)
  | _ :: ts, i =>
    match fetchPages (pages i), nearby_search_all pages ts (i + 1) with
    | (r, n), (rest, m) => (r ++ rest, n + m)

theorem fetchPagesAux_req_le (pageOracle : Nat → Option Page) :
    ∀ fuel i, (fetchPagesAux pageOracle fuel i).2 ≤ fuel := by
  intro fuel
  induction fuel with
  | zero => intro i; simp [fetchPagesAux]
  | succ fuel ih =>
    intro i
    rw [fetchPagesAux]
    rcases hO : pageOracle i with _ | pg
    · simp
    · rcases hpt : pg.next_page_token with _ | tok
      · simp [hpt]
      · rcases hr : fetchPagesAux pageOracle fuel (i + 1) with ⟨rest, n⟩
        have hle := ih (i + 1)
        rw [hr] at hle
        simp [hpt, hr]
        omega

theorem nearby_search_all_flatten (pages : Nat → Nat → Option Page) :
    ∀ (terms : List SearchTerm) (i : Nat),
      nearby_search_all pages terms i
        = (((List.range terms.length).map
            (fun j => (fetchPages (pages (i + j))).1)).flatten,
           ((List.range terms.length).map
            (fun j => (fetchPages (pages (i + j))).2)).sum) := by
  intro terms
  induction terms with
  | nil => intro i; simp [nearby_search_all]
  | cons t ts ih =>
    intro i
    rcases hf : fetchPages (pages i) with ⟨r, n⟩
    rw [nearby_search_all, ih (i + 1), hf]
    simp only [List.length_cons, List.range_succ_eq_map, List.map_cons,
      List.map_map, List.flatten_cons, List.sum_cons, Nat.add_zero, hf,
      Prod.mk.injEq]
    refine ⟨?_, ?_⟩
    · congr 1
      congr 1
      apply List.map_congr_left
      intro j _
      have hidx : i + 1 + j = i + (j + 1) := by omega
      simp only [Function.comp, Nat.succ_eq_add_one, hidx]
    · congr 1
      congr 1
      apply List.map_congr_left
      intro j _
      have hidx : i + 1 + j = i + (j + 1) := by omega
      simp only [Function.comp, Nat.succ_eq_add_one, hidx]

theorem fetchPagesAux_succ (o : Nat → Option Page) (fuel i : Nat) :
    fetchPagesAux o (fuel + 1) i
      = match o i with
        | none => ([], 1)
        | some pg =>
          match pg.next_page_token with
          | none => (pg.results, 1)
          | some _ =>
            match fetchPagesAux o fuel (i + 1) with
            | (rest, n) => (pg.results ++ rest, n + 1) := rfl

/-- C7: the fetcher issues at most three page requests per search term,
stops after the first page whose response carries no continuation token, a
failing first request ends the term with one request and no results, and
the terms are processed independently: the accumulated results (and request
count) of the whole search are the concatenation (sum) of each term's own
results (requests), so one term's failure never disturbs the others. -/
theorem C7_pagination (pages : Nat → Nat → Option Page) (terms : List SearchTerm) :
    (nearby_search_all pages terms 0).1
      = ((List.range terms.length).map (fun i => (fetchPages (pages i)).1)).flatten ∧
    (nearby_search_all pages terms 0).2
      = ((List.range terms.length).map (fun i => (fetchPages (pages i)).2)).sum ∧
    (∀ pageOracle : Nat → Option Page, (fetchPages pageOracle).2 ≤ 3) ∧
    (∀ pageOracle : Nat → Option Page, ∀ pg, pageOracle 0 = some pg →
      pg.next_page_token = none → fetchPages pageOracle = (pg.results, 1)) ∧
    (∀ pageOracle : Nat → Option Page, pageOracle 0 = none →
      fetchPages pageOracle = ([], 1)) := by
  have hfl := nearby_search_all_flatten pages terms 0
  simp only [Nat.zero_add] at hfl
  refine ⟨?_, ?_, ?_, ?_, ?_⟩
  · rw [hfl]
  · rw [hfl]
  · intro o
    exact fetchPagesAux_req_le o 3 0
  · intro o pg h0 hn
    simp only [fetchPages, show (3 : Nat) = 2 + 1 from rfl, fetchPagesAux_succ,
      h0, hn]
  · intro o h0
    simp only [fetchPages, show (3 : Nat) = 2 + 1 from rfl, fetchPagesAux_succ,
      h0]

/-- A concrete page oracle for the C7 witness: term 0 answers one page with
no continuation token; every other term's first request fails. -/
def pagesW : Nat → Nat → Option Page :=
  fun i j =>
    if i = 0 then
      (if j = 0 then
        some { results := [{ place_id := some "a" }], next_page_token := none }
      else none)
    else none

/-- Concrete search terms for the C7 witness. -/
def termsW : List SearchTerm := [⟨some "beach", "beach"⟩, ⟨some "park", "park"⟩]

/-- Witness for C7: with one healthy single-page term and one failing term,
the healthy term's results survive, each term issues exactly one request,
and the count bound holds. -/
theorem C7_pagination_witness :
    (nearby_search_all pagesW termsW 0).1 = [{ place_id := some "a" }] ∧
    (fetchPages (pagesW 0)).2 ≤ 3 ∧
    fetchPages (pagesW 0) = ([{ place_id := some "a" }], 1) ∧
    fetchPages (pagesW 1) = ([], 1) := by
  have h := C7_pagination pagesW termsW
  refine ⟨?_, h.2.2.1 (pagesW 0), ?_, ?_⟩
  · rw [h.1]
    rfl
  · exact h.2.2.2.1 (pagesW 0) _ rfl rfl
  · exact h.2.2.2.2 (pagesW 1) rfl

/-- Embedding of `POIAgent._get_place_details` (poi_agent.py lines 237-246):
the detail record, or `none` when the call raised (the `{}` fallback
returned on failure, dropped by the collector's `if res:` check, collapses
to the same `none`). -/
def get_place_details (details : String → Except String POI)
    (place_id : String) : Option POI :=
  match details place_id with
  | .ok d => some d
  | .error _ => none

/-- Embedding of `POIAgent._fetch_place_details_concurrent` (poi_agent.py
lines 248-263): one detail request per identifier, collecting the successful
results (`as_completed` order is nondeterministic in the source; submission
order is used here) together with, for specification purposes, the list of
requested identifiers. -/
def fetch_place_details_concurrent (details : String → Except String POI) :
    List String → List POI × List String
  | [] => ([], [])
  | pid :: rest =>
    match get_place_details details pid,
        fetch_place_details_concurrent details rest with
    | some d, (rs, reqs) => (d :: rs, pid :: reqs)
    | none, (rs, reqs) => (rs, pid :: reqs)

theorem fetch_details_spec (details : String → Except String POI) :
    ∀ ids, (fetch_place_details_concurrent details ids).2 = ids ∧
      (fetch_place_details_concurrent details ids).1
        = ids.filterMap (get_place_details details) := by
  intro ids
  induction ids with
  | nil => exact ⟨rfl, rfl⟩
  | cons pid rest ih =>
    rw [fetch_place_details_concurrent, List.filterMap_cons]
    rcases hr : fetch_place_details_concurrent details rest with ⟨rs, reqs⟩
    rw [hr] at ih
    rcases hd : get_place_details details pid with _ | d
    · simpa [hd] using ih
    · simpa [hd] using ih

theorem fetch_details_length (details : String → Except String POI) :
    ∀ ids : List String,
      (ids.filterMap (get_place_details details)).length
        = (ids.filter (fun i => (details i).isOk)).length := by
  intro ids
  induction ids with
  | nil => rfl
  | cons pid rest ih =>
    rw [List.filterMap_cons, List.filter_cons]
    rcases hd : details pid with e | d
    · have hg : get_place_details details pid = none := by
        simp [get_place_details, hd]
      simp [hg, hd, Except.isOk, Except.toBool, ih]
    · have hg : get_place_details details pid = some d := by
        simp [get_place_details, hd]
      simp [hg, hd, Except.isOk, Except.toBool, ih]

/-- C9: the DetailFetcher requests each identifier exactly once (for a
duplicate-free input), returns exactly the successfully retrieved records
(in particular a failing identifier is omitted without disturbing the
others), and the number of returned records equals the number of successful
fetches. -/
theorem C9_detail_fetcher (details : String → Except String POI)
    (ids : List String) :
    (fetch_place_details_concurrent details ids).2 = ids ∧
    (ids.Nodup → ∀ pid ∈ ids,
      (fetch_place_details_concurrent details ids).2.count pid = 1) ∧
    (fetch_place_details_concurrent details ids).1
      = ids.filterMap (get_place_details details) ∧
    (fetch_place_details_concurrent details ids).1.length
      = (ids.filter (fun i => (details i).isOk)).length := by
  have h := fetch_details_spec details ids
  refine ⟨h.1, ?_, h.2, ?_⟩
  · intro hnd pid hpid
    rw [h.1]
    exact List.count_eq_one_of_mem hnd hpid
  · rw [h.2]
    exact fetch_details_length details ids

/-- A concrete detail oracle for the C9 witness: the fetch for "c" fails,
every other fetch succeeds. -/
def detailsW : String → Except String POI :=
  fun pid => if pid = "c" then .error "boom" else .ok { place_id := some pid }

/-- Ten concrete unique identifiers for the C9 witness. -/
def idsW : List String := ["a", "b", "c", "d", "e", "f", "g", "h", "i", "j"]

/-- Witness for C9: with ten unique identifiers of which one fails, each
identifier is requested once and the output holds the nine successes. -/
theorem C9_detail_fetcher_witness :
    idsW.Nodup ∧
    (fetch_place_details_concurrent detailsW idsW).2.count "c" = 1 ∧
    (fetch_place_details_concurrent detailsW idsW).1.length = 9 := by
  have h := C9_detail_fetcher detailsW idsW
  have hnd : idsW.Nodup := by decide
  refine ⟨hnd, h.2.1 hnd "c" (by decide), ?_⟩
  rw [h.2.2.2]
  rfl

/-- The environment of one `find_points_of_interest` call: the directions
response (`.error` = the call raised), the nearby-search page oracle (term
index, page index) and the place-details oracle. -/
structure Env where
  directions : Except String (List Route)
  pages : Nat → Nat → Option Page
  details : String → Except String POI

/-- The error-flagged record built by the outermost handler
(poi_agent.py line 163). -/
def error_poi (e : String) : POI :=
  { error := some ("POI search failed: " ++ e) }

/-- Embedding of `POIAgent.find_points_of_interest` (poi_agent.py lines
53-163).  The second component is the number of nearby-search page requests
issued.  The LLM is absent (`self.llm = None`), so the summary step is the
identity, exactly as in the source without a configured Gemini key; the
place-type sanitization of lines 87-89 affects only request parameters,
which the page oracle abstracts.  The only operation whose exception
escapes to the outermost handler in this model is the directions call. -/
def find_points_of_interest (env : Env) (preferences budget : String)
    (max_pois : Nat) : List POI × Nat :=
  match env.directions with
  | .error e => ([error_poi e], 0)
  | .ok [] => ([], 0)
  | .ok (route0 :: _) =>
    match get_route_bounds route0 with
    | none => ([], 0)
    | some _ =>
      match nearby_search_all env.pages (parse_preferences preferences) 0 with
      | (pois, nreq) =>
        if pois.isEmpty then ([], nreq)
        else
          ((rank_pois
            (((fetch_place_details_concurrent env.details
                ((dedupById pois).filterMap POI.place_id)).1).filter
              (fun d => filter_by_budget d budget))
            preferences).take max_pois, nreq)

/-- C8: the pipeline always returns a list-shaped result; an empty
directions response or undeterminable route bounds (e.g. a route with zero
legs) short-circuit to the empty list with zero nearby-search requests, and
an exception escaping to the outermost handler yields a single-element list
holding one error-flagged record instead of propagating. -/
theorem C8_find_pois_error_handling (env : Env) (preferences budget : String)
    (max_pois : Nat) :
    (env.directions = .ok [] →
      find_points_of_interest env preferences budget max_pois = ([], 0)) ∧
    (∀ r rs, env.directions = .ok (r :: rs) → get_route_bounds r = none →
      find_points_of_interest env preferences budget max_pois = ([], 0)) ∧
    (∀ e, env.directions = .error e →
      find_points_of_interest env preferences budget max_pois
        = ([error_poi e], 0) ∧
      (find_points_of_interest env preferences budget max_pois).1.length = 1 ∧
      (error_poi e).error = some ("POI search failed: " ++ e)) := by
  refine ⟨?_, ?_, ?_⟩
  · intro h
    simp only [find_points_of_interest, h]
  · intro r rs h hb
    simp only [find_points_of_interest, h, hb]
  · intro e h
    refine ⟨?_, ?_, rfl⟩
    · simp only [find_points_of_interest, h]
    · simp only [find_points_of_interest, h, List.length_cons, List.length_nil]

/-- Environment with an empty directions response. -/
def envEmptyW : Env :=
  { directions := .ok [], pages := fun _ _ => none,
    details := fun _ => .error "x" }

/-- Environment whose single route has zero legs. -/
def envNoLegsW : Env :=
  { directions := .ok [{ legs := [] }], pages := fun _ _ => none,
    details := fun _ => .error "x" }

/-- Environment whose directions call raises. -/
def envBoomW : Env :=
  { directions := .error "boom", pages := fun _ _ => none,
    details := fun _ => .error "x" }

/-- Witness for C8 at three concrete environments: empty directions, a
zero-leg route, and a raising directions call. -/
theorem C8_find_pois_error_handling_witness :
    find_points_of_interest envEmptyW "beach" "Moderate" 8 = ([], 0) ∧
    find_points_of_interest envNoLegsW "beach" "Moderate" 8 = ([], 0) ∧
    find_points_of_interest envBoomW "beach" "Moderate" 8
      = ([error_poi "boom"], 0) ∧
    (find_points_of_interest envBoomW "beach" "Moderate" 8).1.length = 1 := by
  have h1 := (C8_find_pois_error_handling envEmptyW "beach" "Moderate" 8).1 rfl
  have h2 := (C8_find_pois_error_handling envNoLegsW "beach" "Moderate" 8).2.1
    { legs := [] } [] rfl rfl
  have h3 := (C8_find_pois_error_handling envBoomW "beach" "Moderate" 8).2.2
    "boom" rfl
  exact ⟨h1, h2, h3.1, h3.2.1⟩

end POIAgent
